import Mathlib

/-!
Verification of the hello-quantum-world QUBO track: the classical Max-Cut
benchmark engine (exact optimum solver, heuristic runners, trial harness,
statistical analyzer, reporter).

The repository ships the engine as `corrected_classical_optimization.py`.
Its core routines are quoted verbatim in the in-repo verification documents
(`CORRECTED_QUBO_SUMMARY.md`, `SCIENTIFIC_INTEGRITY_VERIFICATION.md`,
`FINAL_STRESS_TEST_VERIFICATION.md`, `RED_TEAM_V2_VERIFICATION.md`) and its
console/CSV formats in `README_QUBO_TRACK.md`; the embedding below follows
those quoted fragments, and parts documented only in the design spec are
modelled from the spec text (each such definition says so in its doc string).
-/

/-- An undirected graph as the engine uses it: `n` nodes labelled `0..n-1`
(networkx integer labels) and a list of edges. -/
structure Graph where
  n : Nat
  edges : List (Nat × Nat)
deriving Repr, DecidableEq

/-- All `2 ^ n` bipartition assignments, in the order produced by
`itertools.product([0, 1], repeat=n)` (first coordinate varies slowest);
`false` stands for label 0 and `true` for label 1. -/
def product01 : Nat → List (List Bool)
  | 0 => [[]]
  | n + 1 =>
      ((product01 n).map (fun a => false :: a)) ++ ((product01 n).map (fun a => true :: a))

/-- The cut value of one assignment:
`sum(1 for u, v in graph.edges() if assignment[u] != assignment[v])`
from `compute_exact_max_cut` as quoted in `CORRECTED_QUBO_SUMMARY.md`.
Out-of-range labels are given the default label `false` here; the checked
variant `cutValueChecked` models the indexing of the Python tuple exactly. -/
def cutValue (a : List Bool) (edges : List (Nat × Nat)) : Nat :=
  edges.countP (fun e => a.getD e.1 false != a.getD e.2 false)

/-- The same count with Python tuple indexing made explicit: `assignment[u]`
fails (IndexError) when `u` is outside `[0, len(assignment))`, modelled as
`none`. -/
def cutValueChecked (a : List Bool) : List (Nat × Nat) → Option Nat
  | [] => some 0
  | e :: es => do
      let x ← a[e.1]?
      let y ← a[e.2]?
      let rest ← cutValueChecked a es
      some (rest + (if x != y then 1 else 0))

/-- The brute-force enumeration from the quoted `compute_exact_max_cut` body:
`best_cut = 0`, then `best_cut = max(best_cut, cut_value)` over every
assignment of `product([0, 1], repeat=n)`. -/
def bruteForceMaxCut (g : Graph) : Nat :=
  (product01 g.n).foldl (fun best a => max best (cutValue a g.edges)) 0

/-- Reading an assignment function on `Fin n` at a raw node label. -/
def labelOf (n : Nat) (σ : Fin n → Bool) (u : Nat) : Bool :=
  if h : u < n then σ ⟨u, h⟩ else false

/-- The reference Max-Cut definition, following the spec text: the maximum,
over all `2 ^ n` assignments of the `n` vertices to two labels, of the number
of edges whose two endpoints receive different labels. Stated independently
of the enumeration order used by the code. -/
def maxCutSpec (g : Graph) : Nat :=
  Finset.univ.sup fun σ : Fin g.n → Bool =>
    g.edges.countP fun e => labelOf g.n σ e.1 != labelOf g.n σ e.2

/-- Error raised by the exact solver on oversized graphs.  The verification
documents show the concrete message
`Graph too large for exact computation: 25 nodes (max 24). Use --quick flag
or implement heuristic baselines.` -/
inductive SolverError where
  | graphTooLarge (msg : String)
deriving Repr, DecidableEq

/-- The size-guard message, with the offending node count spliced in. -/
def tooLargeMessage (n : Nat) : String :=
  "Graph too large for exact computation: " ++ toString n ++
    " nodes (max 24). Use --quick flag or implement heuristic baselines."

/-- The two heuristic methods of the comparison. -/
inductive Method where
  | tabu
  | simulatedAnnealing
deriving Repr, DecidableEq

/-- Modelled from the spec: the process-global numpy random generator state
that the heuristic runners consume. -/
structure RNG where
  state : Nat
deriving Repr, DecidableEq

/-- Modelled from the spec and `FINAL_VERIFICATION_COMPLETE.md`:
`np.random.seed(trial_seed)` replaces the global generator state by a state
determined by the seed alone, regardless of the prior state. -/
def npSeed (seed : Nat) (_prior : RNG) : RNG := ⟨seed⟩

/-- Modelled from the spec: one step of the pseudo-random generator (a 64-bit
linear congruential generator standing in for numpy's generator). -/
def lcgNext (r : RNG) : Nat × RNG :=
  let s := (6364136223846793005 * r.state + 1442695040888963407) % (2 ^ 64)
  (s, ⟨s⟩)

/-- Modelled from the spec: draw `n` random bits for an initial assignment. -/
def randBits : Nat → RNG → List Bool × RNG
  | 0, r => ([], r)
  | n + 1, r =>
      let s := lcgNext r
      let rest := randBits n s.2
      (((s.1 % 2) == 1) :: rest.1, rest.2)

/-- Flip one vertex of an assignment. -/
def flipAt (a : List Bool) (i : Nat) : List Bool :=
  a.set i (!(a.getD i false))

/-- Accept a single-vertex flip when it strictly improves the cut. -/
def improveStep (edges : List (Nat × Nat)) (a : List Bool) (i : Nat) : List Bool :=
  let b := flipAt a i
  if cutValue a edges < cutValue b edges then b else a

/-- One greedy pass over all vertices. -/
def improvePass (g : Graph) (a : List Bool) : List Bool :=
  (List.range g.n).foldl (improveStep g.edges) a

/-- Number of local-search passes each method performs in the model. -/
def passes : Method → Nat
  | Method.tabu => 3
  | Method.simulatedAnnealing => 2

/-- Modelled from the spec: the heuristic runner contract
`run_heuristic(method, graph, seed) -> (assignment, cut_value, ...)`.
The Ocean samplers (`TabuSampler`, `SimulatedAnnealingSampler`) are external
and their internals are not in the repository; they are modelled as a seeded
local search.  Faithful to the documented seeding discipline, the runner
first executes `np.random.seed(trial_seed)` on the global generator and only
then draws randomness, so the result can depend on the prior global state
only through that overwritten seed.  Wall-clock execution time is not
modelled. -/
def run_heuristic (m : Method) (g : Graph) (seed : Nat) (globalRng : RNG) :
    (List Bool × Nat) × RNG :=
  let r0 := npSeed seed globalRng
  let a0 := (randBits g.n r0).1
  let r1 := (randBits g.n r0).2
  let a := Nat.iterate (improvePass g) (passes m) a0
  ((a, cutValue a g.edges), r1)

/-- Quick mode substitutes the value of one Tabu run for the true optimum
(`return compute_tabu_approximation(graph)` in the quoted guard). -/
def compute_tabu_approximation (g : Graph) : Nat :=
  ((run_heuristic Method.tabu g 0 ⟨0⟩).1).2

/-- `compute_exact_max_cut(graph, quick_mode)`: the quick-mode check sits at
the top (`if quick_mode and n > 12: return compute_tabu_approximation(graph)`,
quoted in `RED_TEAM_V2_VERIFICATION.md`); the size guard rejects graphs above
24 nodes with the message quoted in `FINAL_STRESS_TEST_VERIFICATION.md`;
otherwise the brute-force enumeration runs. -/
def compute_exact_max_cut (g : Graph) (quick_mode : Bool) : Except SolverError Nat :=
  if quick_mode = true ∧ 12 < g.n then
    Except.ok (compute_tabu_approximation g)
  else if 24 < g.n then
    Except.error (SolverError.graphTooLarge (tooLargeMessage g.n))
  else
    Except.ok (bruteForceMaxCut g)

/-- Outcome of the trial harness quality computation. -/
inductive QualityResult where
  | value (q : ℚ)
  | anomaly
deriving Repr, DecidableEq

/-- Modelled from the spec: `quality = cut_value / optimum`; when the optimum
is 0 (degenerate graph with no edges) the quality is 1.0 if the cut value is
also 0, else the trial is flagged as an anomaly. -/
def trialQuality (cut opt : Nat) : QualityResult :=
  if opt = 0 then
    if cut = 0 then QualityResult.value 1 else QualityResult.anomaly
  else
    QualityResult.value ((cut : ℚ) / (opt : ℚ))

/-- One row of the result table, following CSV schema v1 as documented in
`README_QUBO_TRACK.md`. -/
structure TrialRecord where
  graph_name : String
  method : String
  trial_seed : Nat
  cut_value : Nat
  exact_optimum : Nat
  quality : QualityResult
  execution_time : ℚ
  schema_version : Nat
deriving Repr, DecidableEq

/-- The CSV column set of schema v1, exactly as listed in
`README_QUBO_TRACK.md`: there is no column distinguishing exact optima from
quick-mode Tabu approximations. -/
def csvColumns : List String :=
  ["graph_name", "method", "trial_seed", "cut_value", "exact_optimum",
   "quality", "execution_time", "schema_version"]

/-- Whether every element of a sample equals its first element
(zero variance). -/
def allEqual (xs : List ℚ) : Bool :=
  match xs with
  | [] => true
  | x :: rest => rest.all (fun y => y == x)

/-- Sample mean. -/
def sampleMean (xs : List ℚ) : ℚ :=
  xs.sum / (xs.length : ℚ)

/-- Sample variance (unbiased). -/
def sampleVar (xs : List ℚ) : ℚ :=
  (xs.map (fun x => (x - sampleMean xs) ^ 2)).sum / ((xs.length : ℚ) - 1)

/-- The identical-samples degeneracy of the spec: zero variance in both
samples and equal means. -/
def identicalSamples (xs ys : List ℚ) : Bool :=
  allEqual xs && allEqual ys && (sampleMean xs == sampleMean ys)

/-- The squared Welch statistic, kept rational. -/
def welchT2 (xs ys : List ℚ) : ℚ :=
  (sampleMean xs - sampleMean ys) ^ 2 /
    (sampleVar xs / (xs.length : ℚ) + sampleVar ys / (ys.length : ℚ))

/-- Result of the per-graph significance test: either a defined statistic
with its p-value, or the explicit identical-samples marker. -/
inductive TTest where
  | undefinedIdentical
  | defined (t2 p : ℚ)
deriving Repr, DecidableEq

/-- Per-graph comparison of the two methods. -/
structure ComparisonResult where
  graphName : String
  saQualities : List ℚ
  tabuQualities : List ℚ
  ttest : TTest
deriving Repr, DecidableEq

/-- Modelled from the spec: the Statistical Analyzer compares the two quality
samples of one graph.  The p-value of a defined statistic comes from the
external statistics library, modelled as the function `pOf` of the
statistic. -/
def analyzeGraph (pOf : ℚ → ℚ) (name : String) (xs ys : List ℚ) : ComparisonResult :=
  if identicalSamples xs ys then
    ⟨name, xs, ys, TTest.undefinedIdentical⟩
  else
    ⟨name, xs, ys, TTest.defined (welchT2 xs ys) (pOf (welchT2 xs ys))⟩

/-- Analyze the whole battery: one comparison per graph. -/
def analyze (pOf : ℚ → ℚ) (inputs : List (String × List ℚ × List ℚ)) :
    List ComparisonResult :=
  inputs.map (fun t => analyzeGraph pOf t.1 t.2.1 t.2.2)

/-- The p-values that enter multiple-comparison correction: only those of
defined (non-degenerate) tests. -/
def validPValues (rs : List ComparisonResult) : List ℚ :=
  rs.filterMap (fun r =>
    match r.ttest with
    | TTest.defined _ p => some p
    | TTest.undefinedIdentical => none)

/-- The per-graph console lines, following the console output example of
`README_QUBO_TRACK.md`: a degenerate test prints a nan t-statistic line and
the explicit reason line under it. -/
def reportLines (r : ComparisonResult) : List String :=
  let df := r.saQualities.length + r.tabuQualities.length - 2
  match r.ttest with
  | TTest.undefinedIdentical =>
      ["    t-statistic: nan (df=" ++ toString df ++ ", Welch test)",
       "    t-test undefined (identical samples)"]
  | TTest.defined t2 p =>
      ["    t-statistic: " ++ toString t2 ++ " (df=" ++ toString df ++ ", Welch test)",
       "    P-value: " ++ toString p]

/-- Insert a p-value into an ascending list. -/
def insertSorted (p : ℚ) : List ℚ → List ℚ
  | [] => [p]
  | q :: rest => if p ≤ q then p :: q :: rest else q :: insertSorted p rest

/-- Sort p-values ascending (insertion sort). -/
def sortAscending : List ℚ → List ℚ
  | [] => []
  | p :: rest => insertSorted p (sortAscending rest)

/-- Step of Holm-Bonferroni over sorted p-values: count leading rejections. -/
def holmGo (alpha : ℚ) (m : Nat) : List ℚ → Nat → Nat
  | [], k => k
  | p :: rest, k =>
      if p ≤ alpha / ((m - k : Nat) : ℚ) then holmGo alpha m rest (k + 1) else k

/-- Holm-Bonferroni: number of hypotheses still significant after stepwise
correction at level `alpha`. -/
def holmCount (alpha : ℚ) (ps : List ℚ) : Nat :=
  holmGo alpha ps.length (sortAscending ps) 0

/-- The multiple-comparison summary block, following the console output
example of `README_QUBO_TRACK.md` (`Valid tests: 0/7`,
`Skipped identical cases: 7`, `Significant after correction: 0/7`): both
ratio lines print the total graph count as denominator. -/
def multipleComparisonLines (alpha : ℚ) (rs : List ComparisonResult) : List String :=
  let ps := validPValues rs
  ["MULTIPLE COMPARISON CORRECTION:",
   "   Method: Holm-Bonferroni",
   "   Valid tests: " ++ toString ps.length ++ "/" ++ toString rs.length,
   "   Skipped identical cases: " ++ toString (rs.length - ps.length),
   "   Significant after correction: " ++ toString (holmCount alpha ps) ++ "/" ++
     toString rs.length]

/-- The triangle graph of end-to-end scenario 2 (3 nodes, 3 edges). -/
def triangleGraph : Graph :=
  ⟨3, [(0, 1), (1, 2), (0, 2)]⟩

/-- A 20-node cycle, a graph large enough for the quick-mode substitution. -/
def cycle20Graph : Graph :=
  ⟨20, (List.range 20).map (fun i => (i, (i + 1) % 20))⟩

/-- A 30-node graph, the end-to-end scenario 3 input for the size guard. -/
def bigGraph30 : Graph :=
  ⟨30, []⟩

/-- A 3-node graph with no edges (the degenerate zero-optimum case). -/
def emptyGraph3 : Graph :=
  ⟨3, []⟩

/-- A graph whose edge names a node label outside `[0, n)`. -/
def strayLabelGraph : Graph :=
  ⟨2, [(0, 5)]⟩

/-- A constant quality sample, as produced when a method always attains the
optimum. -/
def constQualities : List ℚ :=
  [1, 1, 1]

/-- A concrete stand-in for the library p-value function. -/
def zeroP : ℚ → ℚ :=
  fun _ => 0

/-- Seven graphs whose two quality samples coincide, mirroring the quick-run
battery in which all seven comparisons are skipped as identical. -/
def degenerateInputs7 : List (String × List ℚ × List ℚ) :=
  [("K4", constQualities, constQualities),
   ("K6", constQualities, constQualities),
   ("C8", constQualities, constQualities),
   ("P8", constQualities, constQualities),
   ("R10", constQualities, constQualities),
   ("R12", constQualities, constQualities),
   ("R20", constQualities, constQualities)]

/-! ### Helper lemmas: folds, enumeration, cut values -/

theorem init_le_foldl_max (l : List Nat) (b : Nat) : b ≤ l.foldl max b := by
  induction l generalizing b with
  | nil => exact le_refl b
  | cons x xs ih => exact le_trans (le_max_left b x) (ih (max b x))

theorem elem_le_foldl_max {x : Nat} {l : List Nat} (hx : x ∈ l) (b : Nat) :
    x ≤ l.foldl max b := by
  induction l generalizing b with
  | nil => cases hx
  | cons y ys ih =>
    rcases List.mem_cons.mp hx with h | h
    · subst h
      exact le_trans (le_max_right b x) (init_le_foldl_max ys (max b x))
    · exact ih h (max b y)

theorem foldl_max_le {l : List Nat} {b c : Nat} (hb : b ≤ c) (h : ∀ x ∈ l, x ≤ c) :
    l.foldl max b ≤ c := by
  induction l generalizing b with
  | nil => exact hb
  | cons x xs ih =>
    exact ih (max_le hb (h x (List.mem_cons_self x xs)))
      (fun y hy => h y (List.mem_cons_of_mem x hy))

theorem mem_product01 {n : Nat} {a : List Bool} : a ∈ product01 n ↔ a.length = n := by
  induction n generalizing a with
  | zero => simp [product01, List.length_eq_zero]
  | succ k ih =>
    simp only [product01, List.mem_append, List.mem_map]
    constructor
    · rintro (⟨t, ht, rfl⟩ | ⟨t, ht, rfl⟩) <;> simp [ih.mp ht]
    · intro ha
      cases a with
      | nil => simp at ha
      | cons b t =>
        have ht : t.length = k := by simpa using ha
        cases b
        · exact Or.inl ⟨t, ih.mpr ht, rfl⟩
        · exact Or.inr ⟨t, ih.mpr ht, rfl⟩

theorem bruteForce_as_foldl (g : Graph) :
    bruteForceMaxCut g =
      ((product01 g.n).map (fun a => cutValue a g.edges)).foldl max 0 := by
  unfold bruteForceMaxCut
  rw [List.foldl_map]

theorem cutValue_le_edges (a : List Bool) (E : List (Nat × Nat)) :
    cutValue a E ≤ E.length :=
  List.countP_le_length _

theorem cutValue_le_bruteForce (g : Graph) (a : List Bool) (ha : a.length = g.n) :
    cutValue a g.edges ≤ bruteForceMaxCut g := by
  rw [bruteForce_as_foldl]
  exact elem_le_foldl_max
    (List.mem_map_of_mem (fun a => cutValue a g.edges) (mem_product01.mpr ha)) 0

theorem bruteForce_le_edges (g : Graph) : bruteForceMaxCut g ≤ g.edges.length := by
  rw [bruteForce_as_foldl]
  apply foldl_max_le (Nat.zero_le _)
  intro x hx
  rcases List.mem_map.mp hx with ⟨a, _, rfl⟩
  exact cutValue_le_edges a g.edges

theorem bruteForce_edges_nil (g : Graph) (he : g.edges = []) : bruteForceMaxCut g = 0 := by
  apply Nat.le_antisymm
  · have := bruteForce_le_edges g
    rwa [he] at this
  · exact Nat.zero_le _

theorem labelOf_fun_getD (a : List Bool) {n : Nat} (ha : a.length = n) (u : Nat) :
    labelOf n (fun i : Fin n => a.getD i.val false) u = a.getD u false := by
  unfold labelOf
  by_cases h : u < n
  · rw [dif_pos h]
  · rw [dif_neg h]
    exact (List.getD_eq_default a false (by omega)).symm

theorem getD_map_finRange {n : Nat} (σ : Fin n → Bool) (u : Nat) :
    ((List.finRange n).map σ).getD u false = labelOf n σ u := by
  have hlen : ((List.finRange n).map σ).length = n := by simp
  unfold labelOf
  by_cases h : u < n
  · rw [dif_pos h, List.getD_eq_getElem _ _ (by omega)]
    rw [List.getElem_map]
    congr 1
    apply Fin.ext
    simp [List.getElem_finRange]
  · rw [dif_neg h]
    exact List.getD_eq_default _ _ (by omega)

theorem cutValue_map_finRange {n : Nat} (σ : Fin n → Bool) (E : List (Nat × Nat)) :
    E.countP (fun e => labelOf n σ e.1 != labelOf n σ e.2) =
      cutValue ((List.finRange n).map σ) E := by
  unfold cutValue
  have hp : (fun e : Nat × Nat => labelOf n σ e.1 != labelOf n σ e.2) =
      (fun e : Nat × Nat =>
        ((List.finRange n).map σ).getD e.1 false !=
          ((List.finRange n).map σ).getD e.2 false) := by
    funext e
    rw [getD_map_finRange, getD_map_finRange]
  rw [hp]

theorem cutValue_eq_label_count (a : List Bool) {n : Nat} (ha : a.length = n)
    (E : List (Nat × Nat)) :
    cutValue a E =
      E.countP (fun e =>
        labelOf n (fun i : Fin n => a.getD i.val false) e.1 !=
          labelOf n (fun i : Fin n => a.getD i.val false) e.2) := by
  unfold cutValue
  have hp : (fun e : Nat × Nat =>
      labelOf n (fun i : Fin n => a.getD i.val false) e.1 !=
        labelOf n (fun i : Fin n => a.getD i.val false) e.2) =
      (fun e : Nat × Nat => a.getD e.1 false != a.getD e.2 false) := by
    funext e
    rw [labelOf_fun_getD a ha, labelOf_fun_getD a ha]
  rw [hp]

theorem label_count_le_maxCutSpec (g : Graph) (σ : Fin g.n → Bool) :
    (g.edges.countP fun e => labelOf g.n σ e.1 != labelOf g.n σ e.2) ≤ maxCutSpec g := by
  unfold maxCutSpec
  exact @Finset.le_sup ℕ (Fin g.n → Bool) _ _ Finset.univ
    (fun τ => g.edges.countP fun e => labelOf g.n τ e.1 != labelOf g.n τ e.2) σ
    (Finset.mem_univ σ)

theorem bruteForce_eq_spec (g : Graph) : bruteForceMaxCut g = maxCutSpec g := by
  apply le_antisymm
  · rw [bruteForce_as_foldl]
    apply foldl_max_le (Nat.zero_le _)
    intro x hx
    rcases List.mem_map.mp hx with ⟨a, haMem, rfl⟩
    have ha : a.length = g.n := mem_product01.mp haMem
    rw [cutValue_eq_label_count a ha]
    exact label_count_le_maxCutSpec g (fun i : Fin g.n => a.getD i.val false)
  · unfold maxCutSpec
    apply Finset.sup_le
    intro σ _
    rw [cutValue_map_finRange]
    rw [bruteForce_as_foldl]
    exact elem_le_foldl_max
      (List.mem_map_of_mem (fun a => cutValue a g.edges)
        (mem_product01.mpr (by simp))) 0

theorem maxCutSpec_le_edges (g : Graph) : maxCutSpec g ≤ g.edges.length :=
  Finset.sup_le (fun _ _ => List.countP_le_length _)

theorem compute_exact_eq_bruteForce (g : Graph) (h : g.n ≤ 24) :
    compute_exact_max_cut g false = Except.ok (bruteForceMaxCut g) := by
  simp [compute_exact_max_cut, Nat.not_lt.mpr h]

/-! ### Helper lemmas: heuristic runner shape -/

theorem randBits_length (n : Nat) (r : RNG) : (randBits n r).1.length = n := by
  induction n generalizing r with
  | zero => rfl
  | succ k ih => simp [randBits, ih]

theorem flipAt_length (a : List Bool) (i : Nat) : (flipAt a i).length = a.length :=
  List.length_set a i _

theorem improveStep_length (E : List (Nat × Nat)) (a : List Bool) (i : Nat) :
    (improveStep E a i).length = a.length := by
  unfold improveStep
  dsimp only
  split
  · exact flipAt_length a i
  · rfl

theorem foldl_improveStep_length (E : List (Nat × Nat)) (l : List Nat) (a : List Bool) :
    (l.foldl (improveStep E) a).length = a.length := by
  induction l generalizing a with
  | nil => rfl
  | cons i is ih => rw [List.foldl_cons, ih, improveStep_length]

theorem improvePass_length (g : Graph) (a : List Bool) :
    (improvePass g a).length = a.length :=
  foldl_improveStep_length g.edges (List.range g.n) a

theorem iterate_improvePass_length (g : Graph) (k : Nat) (a : List Bool) :
    (Nat.iterate (improvePass g) k a).length = a.length := by
  induction k generalizing a with
  | zero => rfl
  | succ k ih =>
    rw [Function.iterate_succ_apply, ih, improvePass_length]

theorem run_heuristic_assignment_length (m : Method) (g : Graph) (seed : Nat) (r : RNG) :
    ((run_heuristic m g seed r).1).1.length = g.n := by
  unfold run_heuristic
  dsimp only
  rw [iterate_improvePass_length, randBits_length]

theorem run_heuristic_cut_eq (m : Method) (g : Graph) (seed : Nat) (r : RNG) :
    ((run_heuristic m g seed r).1).2 =
      cutValue ((run_heuristic m g seed r).1).1 g.edges :=
  rfl

/-! ### Helper lemmas: quality -/

theorem trialQuality_bounds (cut opt : Nat) (h : cut ≤ opt) :
    ∃ q : ℚ, trialQuality cut opt = QualityResult.value q ∧ 0 ≤ q ∧ q ≤ 1 := by
  unfold trialQuality
  by_cases h0 : opt = 0
  · subst h0
    have hc : cut = 0 := Nat.le_zero.mp h
    subst hc
    exact ⟨1, by simp, by norm_num, le_refl 1⟩
  · refine ⟨(cut : ℚ) / (opt : ℚ), by simp [h0], ?_, ?_⟩
    · positivity
    · rw [div_le_one (by exact_mod_cast Nat.pos_of_ne_zero h0)]
      exact_mod_cast h

/-! ### Helper lemmas: checked indexing -/

theorem cutValueChecked_sound (a : List Bool) (E : List (Nat × Nat))
    (hE : ∀ e ∈ E, e.1 < a.length ∧ e.2 < a.length) :
    cutValueChecked a E = some (cutValue a E) := by
  induction E with
  | nil => simp [cutValueChecked, cutValue]
  | cons e es ih =>
    have h1 : e.1 < a.length := (hE e (List.mem_cons_self e es)).1
    have h2 : e.2 < a.length := (hE e (List.mem_cons_self e es)).2
    have ihe := ih (fun x hx => hE x (List.mem_cons_of_mem e hx))
    simp only [cutValueChecked, List.getElem?_eq_getElem h1,
      List.getElem?_eq_getElem h2, ihe, Option.bind_eq_bind, Option.some_bind]
    simp [cutValue, List.countP_cons, List.getD, List.getElem?_eq_getElem h1,
      List.getElem?_eq_getElem h2, Nat.add_comm]

theorem cutValueChecked_oob (a : List Bool) (E : List (Nat × Nat))
    (hE : ∃ e ∈ E, a.length ≤ e.1 ∨ a.length ≤ e.2) :
    cutValueChecked a E = none := by
  induction E with
  | nil => simp at hE
  | cons e es ih =>
    rcases hE with ⟨f, hf, hoob⟩
    rcases List.mem_cons.mp hf with rfl | hfes
    · rcases hoob with h | h
      · simp [cutValueChecked, List.getElem?_eq_none h]
      · cases hx : a[f.1]? with
        | none => simp [cutValueChecked, hx]
        | some x => simp [cutValueChecked, hx, List.getElem?_eq_none h]
    · have hrest : cutValueChecked a es = none := ih ⟨f, hfes, hoob⟩
      cases hx : a[e.1]? with
      | none => simp [cutValueChecked, hx]
      | some x =>
        cases hy : a[e.2]? with
        | none => simp [cutValueChecked, hx, hy]
        | some y => simp [cutValueChecked, hx, hy, hrest]

/-! ### Helper lemmas: statistical analyzer -/

theorem analyzeGraph_degenerate (pOf : ℚ → ℚ) (name : String) (xs ys : List ℚ)
    (h : identicalSamples xs ys = true) :
    analyzeGraph pOf name xs ys = ⟨name, xs, ys, TTest.undefinedIdentical⟩ := by
  unfold analyzeGraph
  rw [if_pos h]

theorem analyzeGraph_nondegenerate (pOf : ℚ → ℚ) (name : String) (xs ys : List ℚ)
    (h : ¬ identicalSamples xs ys = true) :
    analyzeGraph pOf name xs ys =
      ⟨name, xs, ys, TTest.defined (welchT2 xs ys) (pOf (welchT2 xs ys))⟩ := by
  unfold analyzeGraph
  rw [if_neg h]

theorem validPValues_cons_undefined (r : ComparisonResult)
    (h : r.ttest = TTest.undefinedIdentical) (rs : List ComparisonResult) :
    validPValues (r :: rs) = validPValues rs := by
  unfold validPValues
  rw [List.filterMap_cons, h]

theorem validPValues_cons_defined (r : ComparisonResult) (t2 p : ℚ)
    (h : r.ttest = TTest.defined t2 p) (rs : List ComparisonResult) :
    validPValues (r :: rs) = p :: validPValues rs := by
  unfold validPValues
  rw [List.filterMap_cons, h]

theorem validPValues_analyze_length (pOf : ℚ → ℚ)
    (inputs : List (String × List ℚ × List ℚ)) :
    (validPValues (analyze pOf inputs)).length =
      inputs.countP (fun t => !(identicalSamples t.2.1 t.2.2)) := by
  induction inputs with
  | nil => rfl
  | cons t ts ih =>
    rw [analyze, List.map_cons, List.countP_cons]
    by_cases h : identicalSamples t.2.1 t.2.2 = true
    · rw [validPValues_cons_undefined _ (by rw [analyzeGraph_degenerate _ _ _ _ h]) _]
      rw [← analyze, ih, h]
      simp
    · rw [validPValues_cons_defined _ (welchT2 t.2.1 t.2.2) (pOf (welchT2 t.2.1 t.2.2))
        (by rw [analyzeGraph_nondegenerate _ _ _ _ h]) _]
      rw [List.length_cons, ← analyze, ih]
      have hb : identicalSamples t.2.1 t.2.2 = false := by
        cases hv : identicalSamples t.2.1 t.2.2
        · rfl
        · exact absurd hv h
      rw [hb]
      simp

theorem analyze_length (pOf : ℚ → ℚ) (inputs : List (String × List ℚ × List ℚ)) :
    (analyze pOf inputs).length = inputs.length :=
  List.length_map _ _

/-! ### Claim theorems -/

/-- C1: for every graph whose node count is within the exact-computation
cutoff (24 nodes), `compute_exact_max_cut` with `quick_mode` false returns
the reference Max-Cut value — the maximum, over all `2 ^ n` assignments of
the `n` vertices to two labels, of the number of edges whose endpoints
receive different labels — and that value lies in `[0, |E|]`. -/
theorem exact_solver_matches_reference (g : Graph) (h : g.n ≤ 24) :
    compute_exact_max_cut g false = Except.ok (maxCutSpec g) ∧
      maxCutSpec g ≤ g.edges.length := by
  constructor
  · rw [compute_exact_eq_bruteForce g h, bruteForce_eq_spec]
  · exact maxCutSpec_le_edges g

/-- Witness for C1 at the triangle graph of end-to-end scenario 2. -/
theorem exact_solver_matches_reference_witness :
    triangleGraph.n ≤ 24 ∧
      (compute_exact_max_cut triangleGraph false = Except.ok (maxCutSpec triangleGraph) ∧
        maxCutSpec triangleGraph ≤ triangleGraph.edges.length) :=
  ⟨by decide, exact_solver_matches_reference triangleGraph (by decide)⟩

/-- C2: a heuristic trial on a graph whose exact optimum was computed by the
brute-force enumeration never exceeds that optimum, and the harness quality
`cut_value / exact_optimum` of such a trial is a defined value in `[0, 1]`. -/
theorem heuristic_cut_within_exact_optimum (m : Method) (g : Graph) (seed : Nat)
    (r : RNG) :
    ((run_heuristic m g seed r).1).2 ≤ bruteForceMaxCut g ∧
      ∃ q : ℚ,
        trialQuality ((run_heuristic m g seed r).1).2 (bruteForceMaxCut g) =
          QualityResult.value q ∧ 0 ≤ q ∧ q ≤ 1 := by
  have hcut : ((run_heuristic m g seed r).1).2 ≤ bruteForceMaxCut g := by
    rw [run_heuristic_cut_eq]
    exact cutValue_le_bruteForce g _ (run_heuristic_assignment_length m g seed r)
  exact ⟨hcut, trialQuality_bounds _ _ hcut⟩

/-- C3: a graph above the 24-node cutoff is rejected up front in exact mode:
the solver fails with the size-guard error whose message names the offending
node count and the limit and suggests the quick flag, and the outcome is
independent of the edge set, so no part of the enumeration can influence
(or be performed for) the result. -/
theorem graph_too_large_rejection (g : Graph) (h : 24 < g.n) :
    compute_exact_max_cut g false =
      Except.error (SolverError.graphTooLarge
        ("Graph too large for exact computation: " ++ toString g.n ++
          " nodes (max 24). Use --quick flag or implement heuristic baselines.")) ∧
      ∀ E₁ E₂ : List (Nat × Nat),
        compute_exact_max_cut ⟨g.n, E₁⟩ false = compute_exact_max_cut ⟨g.n, E₂⟩ false := by
  constructor
  · simp [compute_exact_max_cut, h, tooLargeMessage]
  · intro E₁ E₂
    simp [compute_exact_max_cut, h]

/-- Witness for C3 at the 30-node graph of end-to-end scenario 3. -/
theorem graph_too_large_rejection_witness :
    24 < bigGraph30.n ∧
      (compute_exact_max_cut bigGraph30 false =
        Except.error (SolverError.graphTooLarge
          ("Graph too large for exact computation: " ++ toString bigGraph30.n ++
            " nodes (max 24). Use --quick flag or implement heuristic baselines.")) ∧
        ∀ E₁ E₂ : List (Nat × Nat),
          compute_exact_max_cut ⟨bigGraph30.n, E₁⟩ false =
            compute_exact_max_cut ⟨bigGraph30.n, E₂⟩ false) :=
  ⟨by decide, graph_too_large_rejection bigGraph30 (by decide)⟩

/-- C4 (code behaviour at the failing input): on a 20-node graph in quick
mode the solver returns the value of one run of the Tabu heuristic instead
of enumerating, and CSV schema v1 stores that approximation in the same
`exact_optimum` column as true optima, with no `optimum_is_exact` (or any
other) distinguishing column. -/
theorem quick_mode_approximation_unlabeled :
    compute_exact_max_cut cycle20Graph true =
        Except.ok (compute_tabu_approximation cycle20Graph) ∧
      compute_tabu_approximation cycle20Graph =
        ((run_heuristic Method.tabu cycle20Graph 0 ⟨0⟩).1).2 ∧
      "optimum_is_exact" ∉ csvColumns ∧
      "exact_optimum" ∈ csvColumns := by
  refine ⟨?_, rfl, by decide, by decide⟩
  rfl

/-- C5: when the two methods' quality samples for a graph are identical
(zero variance in both and equal means), the analyzer marks the test
undefined, the per-graph console report carries the explicit line
`t-test undefined (identical samples)`, and the graph contributes no
p-value to the collection entering Holm-Bonferroni correction. -/
theorem identical_samples_reported_and_excluded (pOf : ℚ → ℚ) (name : String)
    (xs ys : List ℚ) (h : identicalSamples xs ys = true) :
    (analyzeGraph pOf name xs ys).ttest = TTest.undefinedIdentical ∧
      "    t-test undefined (identical samples)" ∈
        reportLines (analyzeGraph pOf name xs ys) ∧
      ∀ rs : List ComparisonResult,
        validPValues (analyzeGraph pOf name xs ys :: rs) = validPValues rs := by
  rw [analyzeGraph_degenerate pOf name xs ys h]
  refine ⟨rfl, ?_, ?_⟩
  · simp [reportLines]
  · intro rs
    exact validPValues_cons_undefined _ rfl rs

/-- Witness for C5 at a concrete pair of identical samples. -/
theorem identical_samples_reported_and_excluded_witness :
    identicalSamples constQualities constQualities = true ∧
      ((analyzeGraph zeroP "K6" constQualities constQualities).ttest =
          TTest.undefinedIdentical ∧
        "    t-test undefined (identical samples)" ∈
          reportLines (analyzeGraph zeroP "K6" constQualities constQualities) ∧
        ∀ rs : List ComparisonResult,
          validPValues (analyzeGraph zeroP "K6" constQualities constQualities :: rs) =
            validPValues rs) :=
  ⟨by simp [identicalSamples, allEqual, constQualities],
    identical_samples_reported_and_excluded zeroP "K6" constQualities constQualities
      (by simp [identicalSamples, allEqual, constQualities])⟩

/-- C6 counterexample: the reported console output does contain a printed
nan token — for identical samples the per-graph report includes the line
`t-statistic: nan (df=4, Welch test)` (the README console example shows
`t-statistic: nan (df=38, Welch's test)` for the 20-trial run), so the
claim that no NaN value is printed in any report fails. -/
theorem nan_printed_in_console :
    "    t-statistic: nan (df=4, Welch test)" ∈
      reportLines (analyzeGraph zeroP "K6" constQualities constQualities) := by
  have hid : identicalSamples constQualities constQualities = true := by
    simp [identicalSamples, allEqual, constQualities]
  rw [analyzeGraph_degenerate zeroP "K6" constQualities constQualities hid]
  decide

/-- C6 amended: the nan t-statistic is never printed silently — whenever the
test is undefined (the only case whose report prints a nan token), the same
per-graph report carries the explicit textual reason
`t-test undefined (identical samples)` alongside the nan line. -/
theorem undefined_ttest_carries_reason (pOf : ℚ → ℚ) (name : String)
    (xs ys : List ℚ)
    (h : (analyzeGraph pOf name xs ys).ttest = TTest.undefinedIdentical) :
    ("    t-statistic: nan (df=" ++ toString (xs.length + ys.length - 2) ++
        ", Welch test)") ∈ reportLines (analyzeGraph pOf name xs ys) ∧
      "    t-test undefined (identical samples)" ∈
        reportLines (analyzeGraph pOf name xs ys) := by
  by_cases hid : identicalSamples xs ys = true
  · rw [analyzeGraph_degenerate pOf name xs ys hid]
    constructor
    · simp [reportLines]
    · simp [reportLines]
  · rw [analyzeGraph_nondegenerate pOf name xs ys hid] at h
    cases h

/-- Witness for the amended C6 at a concrete degenerate comparison. -/
theorem undefined_ttest_carries_reason_witness :
    (analyzeGraph zeroP "K6" constQualities constQualities).ttest =
        TTest.undefinedIdentical ∧
      (("    t-statistic: nan (df=" ++
          toString (constQualities.length + constQualities.length - 2) ++
          ", Welch test)") ∈
          reportLines (analyzeGraph zeroP "K6" constQualities constQualities) ∧
        "    t-test undefined (identical samples)" ∈
          reportLines (analyzeGraph zeroP "K6" constQualities constQualities)) :=
  ⟨by
      rw [analyzeGraph_degenerate zeroP "K6" constQualities constQualities
        (by simp [identicalSamples, allEqual, constQualities])],
    undefined_ttest_carries_reason zeroP "K6" constQualities constQualities
      (by
        rw [analyzeGraph_degenerate zeroP "K6" constQualities constQualities
          (by simp [identicalSamples, allEqual, constQualities])])⟩

/-- C7 counterexample: in the quick-run battery in which all seven
comparisons are degenerate, the console prints
`Significant after correction: 0/7` (as the README documents) although zero
p-values entered the correction — the printed denominator is the total graph
count (7), not the number of valid tests (0). -/
theorem correction_denominator_counterexample :
    (multipleComparisonLines (1 / 20) (analyze zeroP degenerateInputs7)).getD 4 "" =
        "   Significant after correction: 0/7" ∧
      (validPValues (analyze zeroP degenerateInputs7)).length = 0 ∧
      (analyze zeroP degenerateInputs7).length = 7 ∧
      (0 : Nat) ≠ 7 := by
  have hid : identicalSamples constQualities constQualities = true := by
    simp [identicalSamples, allEqual, constQualities]
  have e1 : ∀ name : String,
      analyzeGraph zeroP name constQualities constQualities =
        ⟨name, constQualities, constQualities, TTest.undefinedIdentical⟩ :=
    fun name => analyzeGraph_degenerate zeroP name constQualities constQualities hid
  have h7 : analyze zeroP degenerateInputs7 =
      [⟨"K4", constQualities, constQualities, TTest.undefinedIdentical⟩,
       ⟨"K6", constQualities, constQualities, TTest.undefinedIdentical⟩,
       ⟨"C8", constQualities, constQualities, TTest.undefinedIdentical⟩,
       ⟨"P8", constQualities, constQualities, TTest.undefinedIdentical⟩,
       ⟨"R10", constQualities, constQualities, TTest.undefinedIdentical⟩,
       ⟨"R12", constQualities, constQualities, TTest.undefinedIdentical⟩,
       ⟨"R20", constQualities, constQualities, TTest.undefinedIdentical⟩] := by
    simp [analyze, degenerateInputs7, e1]
  rw [h7]
  refine ⟨by decide, by decide, by decide, by decide⟩

/-- C7 amended: in the summary line `Significant after correction: X/Y` the
denominator `Y` is the total number of graphs compared, not the count of
valid tests; the count of p-values that actually entered Holm-Bonferroni
(the non-degenerate comparisons) appears separately in the
`Valid tests:` line. -/
theorem correction_denominator_total_graphs (alpha : ℚ) (pOf : ℚ → ℚ)
    (inputs : List (String × List ℚ × List ℚ)) :
    (multipleComparisonLines alpha (analyze pOf inputs)).getD 4 "" =
        "   Significant after correction: " ++
          toString (holmCount alpha (validPValues (analyze pOf inputs))) ++ "/" ++
          toString inputs.length ∧
      (multipleComparisonLines alpha (analyze pOf inputs)).getD 2 "" =
        "   Valid tests: " ++
          toString (inputs.countP (fun t => !(identicalSamples t.2.1 t.2.2))) ++ "/" ++
          toString inputs.length := by
  constructor
  · rw [← analyze_length pOf inputs]
    rfl
  · rw [← validPValues_analyze_length pOf inputs, ← analyze_length pOf inputs]
    rfl

/-- C8: a graph with no edges has exact optimum 0 and every heuristic trial
on it gets quality 1.0 (the 0/0 case is resolved, producing a defined value,
never a failure), while a nonzero cut value against a zero optimum is
flagged as an anomaly instead of being divided. -/
theorem zero_edge_graph_optimum_and_quality (g : Graph) (he : g.edges = [])
    (hn : g.n ≤ 24) :
    compute_exact_max_cut g false = Except.ok 0 ∧
      (∀ (m : Method) (seed : Nat) (r : RNG),
        trialQuality ((run_heuristic m g seed r).1).2 0 = QualityResult.value 1) ∧
      (∀ c : Nat, c ≠ 0 → trialQuality c 0 = QualityResult.anomaly) := by
  refine ⟨?_, ?_, ?_⟩
  · rw [compute_exact_eq_bruteForce g hn, bruteForce_edges_nil g he]
  · intro m seed r
    have hc : ((run_heuristic m g seed r).1).2 = 0 := by
      rw [run_heuristic_cut_eq]
      simp [cutValue, he]
    rw [hc]
    simp [trialQuality]
  · intro c hc
    simp [trialQuality, hc]

/-- Witness for C8 at a 3-node edgeless graph. -/
theorem zero_edge_graph_optimum_and_quality_witness :
    emptyGraph3.edges = [] ∧ emptyGraph3.n ≤ 24 ∧
      (compute_exact_max_cut emptyGraph3 false = Except.ok 0 ∧
        (∀ (m : Method) (seed : Nat) (r : RNG),
          trialQuality ((run_heuristic m emptyGraph3 seed r).1).2 0 =
            QualityResult.value 1) ∧
        (∀ c : Nat, c ≠ 0 → trialQuality c 0 = QualityResult.anomaly)) :=
  ⟨rfl, by decide, zero_edge_graph_optimum_and_quality emptyGraph3 rfl (by decide)⟩

/-- C9: the heuristic runner is a deterministic function of its explicit
seed: because it reseeds the global generator first
(`np.random.seed(trial_seed)`), its assignment and cut value do not depend
on the hidden global random state it starts from, so two invocations with
the same method, graph and seed return identical results. -/
theorem run_heuristic_reproducible (m : Method) (g : Graph) (seed : Nat)
    (r₁ r₂ : RNG) :
    (run_heuristic m g seed r₁).1 = (run_heuristic m g seed r₂).1 :=
  rfl

/-- C10: `compute_exact_max_cut` indexes each enumerated assignment tuple
directly by the graph's node labels (`assignment[u] != assignment[v]`), so
the enumeration is free of out-of-range indexing exactly under the unstated
precondition that every node label lies in `[0, n)`: with the precondition,
every enumerated assignment evaluates without an indexing failure (and the
checked evaluation agrees with the total model); with any edge endpoint
outside `[0, n)`, every enumerated assignment fails its index lookup. -/
theorem assignment_indexing_precondition (g : Graph) :
    ((∀ e ∈ g.edges, e.1 < g.n ∧ e.2 < g.n) →
      ∀ a : List Bool, a.length = g.n →
        cutValueChecked a g.edges = some (cutValue a g.edges)) ∧
      ((∃ e ∈ g.edges, g.n ≤ e.1 ∨ g.n ≤ e.2) →
        ∀ a : List Bool, a.length = g.n → cutValueChecked a g.edges = none) := by
  constructor
  · intro hvalid a ha
    apply cutValueChecked_sound
    intro e he
    rw [ha]
    exact hvalid e he
  · intro hbad a ha
    apply cutValueChecked_oob
    rcases hbad with ⟨e, he, hoob⟩
    rw [ha]
    exact ⟨e, he, hoob⟩

/-- Witness for C10: the valid triangle graph indexes safely, the graph with
a stray label 5 on 2 nodes fails its lookup, both at a concrete enumerated
assignment. -/
theorem assignment_indexing_precondition_witness :
    cutValueChecked [true, false, true] triangleGraph.edges =
        some (cutValue [true, false, true] triangleGraph.edges) ∧
      cutValueChecked [true, false] strayLabelGraph.edges = none :=
  ⟨(assignment_indexing_precondition triangleGraph).1 (by decide)
      [true, false, true] (by decide),
    (assignment_indexing_precondition strayLabelGraph).2
      ⟨(0, 5), by decide, Or.inr (by decide)⟩ [true, false] (by decide)⟩
